import Mathlib

/-!
# Verification of the MovieLens recommender notebook

A shallow embedding, in Lean 4, of the decision-bearing logic of
`01_materials/labs/lab_3.ipynb`: the items/ratings join, the popularity
computation, the train/test split, the embedding regression model's
prediction, cosine similarity over learned item embeddings, the
`most_similar` ranking and the `recommend` function.

Conventions of the embedding:

* Machine floats are modelled as exact numbers: embedding vectors are
  `List ℚ`, dot products live in `ℚ`, and cosine similarities (which need a
  square root) live in `ℝ`.
* `np.argsort` is modelled as a stable ascending sort of positions by value
  (numpy's introsort degenerates to a stable insertion scan on the tiny
  arrays involved; stability is the standard deterministic model).
* A Python `KeyError` / out-of-range lookup and the Keras error raised on an
  embedding index that is out of range are modelled by `Option`, with
  `none` for the raised error.
* A pandas slice `a[-n:]` is modelled including the `n = 0` corner case,
  where Python returns the whole array.
-/

/-- One row of `u.data`, as loaded into `raw_ratings`:
`user_id, item_id, rating, timestamp`. -/
structure Rating where
  user_id : ℕ
  item_id : ℕ
  rating : ℕ
  timestamp : ℕ
  deriving DecidableEq

/-- One row of `u.item` restricted to the columns the claims touch:
`item_id` (the unique key) and `title`. -/
structure Item where
  item_id : ℕ
  title : String
  deriving DecidableEq

/-- Dot product of two vectors, `numpy`-style over exact rationals.
`zipWith` truncates at the shorter vector, matching elementwise product of
equal-length arrays in every use in the notebook. -/
def dotQ (a b : List ℚ) : ℚ := (List.zipWith (fun x y => x * y) a b).sum

/-- The all-zeros vector predicate (used to state the zero-norm corner of
cosine similarity). -/
def isZeroVec (v : List ℚ) : Prop := ∀ x ∈ v, x = 0

instance (v : List ℚ) : Decidable (isZeroVec v) := List.decidableBAll _ v

/-- The L2 norm as used by sklearn's `cosine_similarity`: rows are divided
by their norm, except that a zero norm is replaced by `1` (sklearn's
`normalize` sets `norms[norms == 0.0] = 1.0`). The squared norm
`dotQ v v` is zero exactly when the norm is. -/
noncomputable def safeNorm (v : List ℚ) : ℝ :=
  if dotQ v v = 0 then 1 else Real.sqrt ((dotQ v v : ℚ) : ℝ)

/-- The notebook's `cosine(a, b)` (cell defining `cosine` via
`sklearn.metrics.pairwise.cosine_similarity`): the normalized dot product,
with sklearn's zero-norm-becomes-one behaviour. -/
noncomputable def cosine (a b : List ℚ) : ℝ :=
  ((dotQ a b : ℚ) : ℝ) / (safeNorm a * safeNorm b)

/-- The cosine-similarity contract exactly as the specification words it
(spec section 4.4): a real in `[-1, 1]` for nonzero vectors, and a failure
(`none`, the spec's `InvalidInput`) when either vector is the zero vector.
Stated only to be compared against the notebook's `cosine`. -/
noncomputable def cosineSpecified (a b : List ℚ) : Option ℝ :=
  if isZeroVec a ∨ isZeroVec b then none else some (cosine a b)

/-- `pd.merge(left, right)` with a single shared key column, inner-join
semantics: each left row is paired with every right row whose key matches.
Output order follows the left frame, as pandas does for an inner merge. -/
def mergeOn {α β : Type} (ka : α → ℕ) (kb : β → ℕ) (left : List α) (right : List β) :
    List (α × β) :=
  left.flatMap (fun a => (right.filter (fun b => ka a = kb b)).map (fun b => (a, b)))

/-- `all_ratings = pd.merge(items, raw_ratings)`: the enrichment join of the
notebook, on the shared `item_id` column. -/
def allRatingsJoin (items : List Item) (ratings : List Rating) : List (Item × Rating) :=
  mergeOn Item.item_id Rating.item_id items ratings

/-- The distinct item ids occurring in the rating table (the group keys of
`all_ratings.groupby('item_id')`; key order is irrelevant to the claims). -/
def ratedIds (ratings : List Rating) : List ℕ := (ratings.map Rating.item_id).dedup

/-- `popularity = all_ratings.groupby('item_id').size()`: one
`(item_id, rating count)` row per item id that occurs in the ratings. -/
def popularity (ratings : List Rating) : List (ℕ × ℕ) :=
  (ratedIds ratings).map (fun k => (k, (ratings.filter (fun r => r.item_id = k)).length))

/-- `items = pd.merge(popularity, items)`: the popularity table (left) inner
merged with the items metadata on `item_id`. -/
def itemsWithPopularity (ratings : List Rating) (items : List Item) :
    List ((ℕ × ℕ) × Item) :=
  mergeOn Prod.fst Item.item_id (popularity ratings) items

/-- A row lookup in `indexed_items = items.set_index('item_id')` after the
popularity merge; `none` models the empty lookup (`KeyError`). -/
def lookupItem (tbl : List ((ℕ × ℕ) × Item)) (id : ℕ) : Option ((ℕ × ℕ) × Item) :=
  tbl.find? (fun p => p.2.item_id = id)

/-- `np.argsort(l)`: the positions `0, …, l.length - 1` stably sorted in
ascending order of their values in `l`. Positions are always in range, so
the default `d` never influences the result. -/
def argsortAsc {α : Type} [LinearOrder α] (d : α) (l : List α) : List ℕ :=
  List.insertionSort (fun a b => l.getD a d ≤ l.getD b d) (List.range l.length)

/-- The Python slice `l[-n:]` (numpy slicing): the last `n` entries, except
that `l[-0:]` is the whole list. -/
def sliceLast {α : Type} (n : ℕ) (l : List α) : List α :=
  if n = 0 then l else l.drop (l.length - n)

/-- The similarity row computed inside `most_similar`:
`cosine_similarity(item_embeddings[item_id].reshape(1, -1), item_embeddings).ravel()`,
one cosine per row of the embedding table. -/
noncomputable def simsOf (E : List (List ℚ)) (i : ℕ) : List ℝ :=
  E.map (fun v => cosine (E.getD i []) v)

/-- The `idxs` of `most_similar`: `np.argsort(sims)[::-1][0:top_n]`. -/
noncomputable def mostSimilarIdx (i : ℕ) (E : List (List ℚ)) (top_n : ℕ) : List ℕ :=
  ((argsortAsc 0 (simsOf E i)).reverse).take top_n

/-- The notebook's `most_similar(item_id, item_embeddings, titles, top_n)`:
`list(zip(idxs, titles[idxs], sims[idxs]))`. A missing title is `none`
(the pandas lookup would raise). -/
noncomputable def mostSimilar (i : ℕ) (E : List (List ℚ)) (titles : ℕ → Option String)
    (top_n : ℕ) : List (ℕ × Option String × ℝ) :=
  (mostSimilarIdx i E top_n).map (fun j => (j, titles j, (simsOf E i).getD j 0))

/-- The tie order the code actually produces in `most_similar`: similarity
strictly descending, equal similarities broken by descending item id. -/
def codeSimOrder (e f : ℕ × Option String × ℝ) : Prop :=
  f.2.2 < e.2.2 ∨ (f.2.2 = e.2.2 ∧ f.1 < e.1)

/-- The tie order the specification asserts for `most_similar`: similarity
descending, equal similarities broken by ascending item id. -/
def specSimOrder (e f : ℕ × Option String × ℝ) : Prop :=
  f.2.2 < e.2.2 ∨ (f.2.2 = e.2.2 ∧ e.1 < f.1)

/-- The two embedding tables of `RegressionModel`: row `u` of `userEmb` is
the embedding vector of user id `u`, row `i` of `itemEmb` that of item id
`i` (Keras `Embedding(input_dim = max_id + 1)` tables). -/
structure RegModel where
  userEmb : List (List ℚ)
  itemEmb : List (List ℚ)

/-- A Keras embedding lookup: the row at index `id`, or an error (`none`)
when `id` is outside the table allocated at model construction. -/
def embLookup (t : List (List ℚ)) (id : ℕ) : Option (List ℚ) := t[id]?

/-- `RegressionModel.call` for a single `(user, item)` pair: look both
embeddings up and return their dot product; an out-of-range id is an
error, not a clamp. -/
def predictModel (m : RegModel) (u i : ℕ) : Option ℚ := do
  let uv ← embLookup m.userEmb u
  let iv ← embLookup m.itemEmb i
  pure (dotQ uv iv)

/-- `set(all_ratings[all_ratings["user_id"] == user_id]["item_id"])`: the
item ids the user has already rated (membership is all that is used). -/
def seenMovies (ratings : List Rating) (u : ℕ) : List ℕ :=
  (ratings.filter (fun r => r.user_id = u)).map Rating.item_id

/-- The candidate item ids of `recommend`:
`list(filter(lambda x: x not in seen_movies, range(1, items['item_id'].max())))`. -/
def recommendCandidates (ratings : List Rating) (maxItem u : ℕ) : List ℕ :=
  (List.range' 1 (maxItem - 1)).filter (fun x => x ∉ seenMovies ratings u)

/-- `model.predict([user, items_]).flatten()`: one prediction per candidate
item, for the fixed user; any out-of-range id fails the whole batch. -/
def predictAll (m : RegModel) (u : ℕ) : List ℕ → Option (List ℚ)
  | [] => some []
  | i :: rest =>
    match predictModel m u i, predictAll m u rest with
    | some r, some rs => some (r :: rs)
    | _, _ => none

/-- `top_items = ratings.argsort()[-top_n:][::-1]` inside `recommend`:
positions into the prediction array, best predicted rating first. -/
def recommendTopItems (preds : List ℚ) (top_n : ℕ) : List ℕ :=
  (sliceLast top_n (argsortAsc 0 preds)).reverse

/-- The notebook's `recommend(user_id, top_n)`. Note the final line of the
source: `[(indexed_items.loc[item_id]["title"], ratings[item_id]) for
item_id in top_items]` — the loop variable ranges over argsort *positions*,
which are then used as item ids for the title lookup. The embedding keeps
that behaviour exactly. -/
def recommend (m : RegModel) (ratings : List Rating) (maxItem : ℕ)
    (titles : ℕ → Option String) (u top_n : ℕ) : Option (List (String × ℚ)) := do
  let item_ids := recommendCandidates ratings maxItem u
  let preds ← predictAll m u item_ids
  (recommendTopItems preds top_n).mapM (fun p => do
    let t ← titles p
    pure (t, preds.getD p 0))

/-- A linear congruential step (Numerical Recipes constants), the
pseudo-random source of the modelled splitter. -/
def lcg (s : ℕ) : ℕ := (1664525 * s + 1013904223) % 4294967296

/-- Modelled from the spec: the seeded shuffle inside
`sklearn.model_selection.train_test_split`, which is library code absent
from the repository. Per spec section 4.2 the split must be a deterministic
pseudo-random row permutation given the seed; we model the permutation by
repeatedly drawing an LCG-derived index and extracting that row. `fuel` is
the number of draws (the row count at the call site). -/
def shuffleAux {α : Type} : ℕ → ℕ → List α → List α
  | _, _, [] => []
  | _, 0, _ :: _ => []
  | s, fuel + 1, x :: xs =>
    (x :: xs).get ⟨s % (x :: xs).length, Nat.mod_lt _ (Nat.succ_pos _)⟩ ::
      shuffleAux (lcg s) fuel ((x :: xs).eraseIdx (s % (x :: xs).length))

/-- Modelled from the spec: `train_test_split(rows, test_size = f,
random_state = seed)` — sklearn library code absent from the repository.
A deterministic seed-derived permutation of the rows; the first
`⌈f · n⌉` permuted rows are the test set and the rest the train set,
returned as `(train, test)`. -/
def trainTestSplit {α : Type} (rows : List α) (f : ℚ) (seed : ℕ) : List α × List α :=
  let nTest := Nat.ceil (f * rows.length)
  let p := shuffleAux seed rows.length rows
  (p.drop nTest, p.take nTest)

/-- `pd.to_datetime` applied to a column, with its default
`errors='raise'`: a missing value (`none`, pandas `NaN`) converts to a
missing date (`NaT`, again `none`), a parsable value converts, and any
unparsable value raises — failing the whole column conversion. The raw
cell type and the parser are parameters; `parse` returns the extracted
year directly (`.dt.year` fused in, as only the year is ever used). -/
def toDatetimeColumn {α : Type} (parse : α → Option ℕ) :
    List (Option α) → Option (List (Option ℕ))
  | [] => some []
  | none :: rest => (toDatetimeColumn parse rest).map (fun out => none :: out)
  | some s :: rest =>
    match parse s with
    | some d => (toDatetimeColumn parse rest).map (fun out => some d :: out)
    | none => none

/-- A concrete date parser for witnesses and counterexamples: raw cells are
numeric codes, codes below 3000 parse to themselves as a year, larger codes
are unparsable. -/
def parseYearN : ℕ → Option ℕ := fun n => if n < 3000 then some n else none

/-- A title table that has no titles; used where titles are irrelevant. -/
def noTitle : ℕ → Option String := fun _ => none

/-- Concrete model for the `recommend` evaluation: user embeddings `[[0],
[1]]`, item embeddings for item ids `0 … 4`. -/
def exModel : RegModel := ⟨[[0], [1]], [[0], [1], [5], [3], [9]]⟩

/-- Concrete rating table: user 1 has rated item 2 (and nothing else). -/
def exRatings : List Rating := [⟨1, 2, 5, 0⟩]

/-- Concrete titles for item ids 1 to 4. -/
def exTitles : ℕ → Option String := fun n =>
  if n = 1 then some "M1"
  else if n = 2 then some "M2"
  else if n = 3 then some "M3"
  else if n = 4 then some "M4"
  else none

/-! ## Dot product lemmas -/

theorem dotQ_nil_left (b : List ℚ) : dotQ [] b = 0 := rfl

theorem dotQ_nil_right (a : List ℚ) : dotQ a [] = 0 := by
  cases a <;> rfl

theorem dotQ_cons (x y : ℚ) (a b : List ℚ) :
    dotQ (x :: a) (y :: b) = x * y + dotQ a b := rfl

theorem dotQ_self_nonneg (v : List ℚ) : 0 ≤ dotQ v v := by
  induction v with
  | nil => simp [dotQ]
  | cons x xs ih => rw [dotQ_cons]; nlinarith [sq_nonneg x]

theorem dotQ_self_eq_zero_iff (v : List ℚ) : dotQ v v = 0 ↔ isZeroVec v := by
  induction v with
  | nil => simp [dotQ, isZeroVec]
  | cons x xs ih =>
    rw [dotQ_cons]
    constructor
    · intro h
      have hx : x * x = 0 ∧ dotQ xs xs = 0 := by
        constructor <;> nlinarith [sq_nonneg x, dotQ_self_nonneg xs]
      intro y hy
      rcases List.mem_cons.mp hy with rfl | hy
      · nlinarith [hx.1]
      · exact (ih.mp hx.2) y hy
    · intro h
      have hx : x = 0 := h x (List.mem_cons_self _ _)
      have hxs : dotQ xs xs = 0 := ih.mpr (fun y hy => h y (List.mem_cons_of_mem _ hy))
      rw [hx, hxs]; ring

theorem dotQ_zero_left {a : List ℚ} (h : isZeroVec a) (b : List ℚ) : dotQ a b = 0 := by
  induction a generalizing b with
  | nil => simp [dotQ]
  | cons x xs ih =>
    cases b with
    | nil => exact dotQ_nil_right _
    | cons y ys =>
      rw [dotQ_cons, h x (List.mem_cons_self _ _),
        ih (fun z hz => h z (List.mem_cons_of_mem _ hz)) ys]
      ring

theorem dotQ_comm (a b : List ℚ) : dotQ a b = dotQ b a := by
  induction a generalizing b with
  | nil => rw [dotQ_nil_left, dotQ_nil_right]
  | cons x xs ih =>
    cases b with
    | nil => rw [dotQ_nil_left, dotQ_nil_right]
    | cons y ys => rw [dotQ_cons, dotQ_cons, ih, mul_comm]

/-- The Cauchy–Schwarz inequality for the list dot product. -/
theorem dotQ_sq_le (a b : List ℚ) : dotQ a b ^ 2 ≤ dotQ a a * dotQ b b := by
  induction a generalizing b with
  | nil => simp [dotQ]
  | cons x xs ih =>
    cases b with
    | nil =>
      rw [dotQ_nil_right, dotQ_nil_right]
      simp [dotQ_self_nonneg, mul_nonneg (dotQ_self_nonneg (x :: xs))]
    | cons y ys =>
      have h := ih ys
      have hA := dotQ_self_nonneg xs
      have hB := dotQ_self_nonneg ys
      rw [dotQ_cons, dotQ_cons, dotQ_cons]
      by_cases hA0 : dotQ xs xs = 0
      · have hd : dotQ xs ys = 0 := dotQ_zero_left ((dotQ_self_eq_zero_iff xs).mp hA0) ys
        rw [hA0, hd]
        nlinarith [sq_nonneg x, sq_nonneg y, mul_nonneg (sq_nonneg x) hB]
      · have hApos : 0 < dotQ xs xs := lt_of_le_of_ne hA (Ne.symm hA0)
        nlinarith [sq_nonneg (x * dotQ xs ys - dotQ xs xs * y),
          mul_nonneg (sub_nonneg.mpr h) (sq_nonneg x), h, hApos]

/-! ## Cosine similarity lemmas -/

theorem safeNorm_pos (v : List ℚ) : 0 < safeNorm v := by
  unfold safeNorm
  split
  · exact one_pos
  · rename_i h
    have hv : (0 : ℚ) < dotQ v v := lt_of_le_of_ne (dotQ_self_nonneg v) (Ne.symm h)
    exact Real.sqrt_pos.mpr (by exact_mod_cast hv)

theorem safeNorm_of_ne {v : List ℚ} (h : dotQ v v ≠ 0) :
    safeNorm v = Real.sqrt ((dotQ v v : ℚ) : ℝ) := by
  unfold safeNorm; exact if_neg h

theorem cosine_zero_left {a : List ℚ} (h : isZeroVec a) (b : List ℚ) : cosine a b = 0 := by
  unfold cosine
  rw [dotQ_zero_left h b]
  simp

theorem cosine_zero_right (a : List ℚ) {b : List ℚ} (h : isZeroVec b) : cosine a b = 0 := by
  unfold cosine
  rw [dotQ_comm, dotQ_zero_left h a]
  simp

theorem abs_cosine_le_one (a b : List ℚ) : |cosine a b| ≤ 1 := by
  by_cases ha : isZeroVec a
  · rw [cosine_zero_left ha]; norm_num
  by_cases hb : isZeroVec b
  · rw [cosine_zero_right _ hb]; norm_num
  have hA : dotQ a a ≠ 0 := fun h => ha ((dotQ_self_eq_zero_iff a).mp h)
  have hB : dotQ b b ≠ 0 := fun h => hb ((dotQ_self_eq_zero_iff b).mp h)
  have hA0 : (0 : ℝ) < ((dotQ a a : ℚ) : ℝ) := by
    exact_mod_cast lt_of_le_of_ne (dotQ_self_nonneg a) (Ne.symm hA)
  have hB0 : (0 : ℝ) < ((dotQ b b : ℚ) : ℝ) := by
    exact_mod_cast lt_of_le_of_ne (dotQ_self_nonneg b) (Ne.symm hB)
  have hcs : (((dotQ a b : ℚ) : ℝ)) ^ 2 ≤ ((dotQ a a : ℚ) : ℝ) * ((dotQ b b : ℚ) : ℝ) := by
    exact_mod_cast dotQ_sq_le a b
  have habs : |((dotQ a b : ℚ) : ℝ)| ≤
      Real.sqrt ((dotQ a a : ℚ) : ℝ) * Real.sqrt ((dotQ b b : ℚ) : ℝ) := by
    rw [← Real.sqrt_mul hA0.le]
    have h1 : |((dotQ a b : ℚ) : ℝ)| = Real.sqrt (((dotQ a b : ℚ) : ℝ) ^ 2) := by
      rw [Real.sqrt_sq_eq_abs]
    rw [h1]
    exact Real.sqrt_le_sqrt hcs
  unfold cosine
  rw [safeNorm_of_ne hA, safeNorm_of_ne hB, abs_div]
  rw [abs_of_pos (by positivity :
    (0:ℝ) < Real.sqrt ((dotQ a a : ℚ) : ℝ) * Real.sqrt ((dotQ b b : ℚ) : ℝ))]
  rw [div_le_one (by positivity)]
  exact habs

theorem cosine_self {v : List ℚ} (h : ¬ isZeroVec v) : cosine v v = 1 := by
  have hv : dotQ v v ≠ 0 := fun h0 => h ((dotQ_self_eq_zero_iff v).mp h0)
  have hv0 : (0 : ℝ) < ((dotQ v v : ℚ) : ℝ) := by
    exact_mod_cast lt_of_le_of_ne (dotQ_self_nonneg v) (Ne.symm hv)
  unfold cosine
  rw [safeNorm_of_ne hv, ← Real.sqrt_mul hv0.le, Real.sqrt_mul_self hv0.le]
  exact div_self (ne_of_gt hv0)

theorem cosine_le_one (a b : List ℚ) : cosine a b ≤ 1 :=
  le_of_abs_le (abs_cosine_le_one a b)

theorem neg_one_le_cosine (a b : List ℚ) : -1 ≤ cosine a b :=
  neg_le_of_abs_le (abs_cosine_le_one a b)

/-! ## Stability of the modelled argsort -/

/-- Inserting a fresh smallest-position element into a list sorted by the
value-then-position order keeps that order, provided the new position is
below every position already present. -/
theorem orderedInsert_lex {α : Type} [LinearOrder α] (key : ℕ → α) (x : ℕ) :
    ∀ s : List ℕ,
      List.Sorted (fun a b => key a < key b ∨ (key a = key b ∧ a < b)) s →
      (∀ y ∈ s, x < y) →
      List.Sorted (fun a b => key a < key b ∨ (key a = key b ∧ a < b))
        (List.orderedInsert (fun a b => key a ≤ key b) x s) := by
  intro s
  induction s with
  | nil => intro _ _; simp [List.orderedInsert, List.sorted_singleton]
  | cons y ys ih =>
    intro hs hx
    have hys : List.Sorted (fun a b => key a < key b ∨ (key a = key b ∧ a < b)) ys :=
      (List.sorted_cons.mp hs).2
    have hyall := (List.sorted_cons.mp hs).1
    rw [List.orderedInsert]
    split
    · rename_i hle
      rw [List.sorted_cons]
      refine ⟨?_, hs⟩
      intro z hz
      rcases List.mem_cons.mp hz with rfl | hz
      · rcases lt_or_eq_of_le hle with h | h
        · exact Or.inl h
        · exact Or.inr ⟨h, hx z (List.mem_cons_self _ _)⟩
      · have hyz := hyall z hz
        have hkyz : key y ≤ key z := by
          rcases hyz with h | h
          · exact le_of_lt h
          · exact le_of_eq h.1
        rcases lt_or_eq_of_le (le_trans hle hkyz) with h | h
        · exact Or.inl h
        · exact Or.inr ⟨h, hx z (List.mem_cons_of_mem _ hz)⟩
    · rename_i hnle
      have hlt : key y < key x := lt_of_not_le hnle
      rw [List.sorted_cons]
      constructor
      · intro z hz
        rcases (List.mem_orderedInsert _).mp hz with rfl | hz
        · exact Or.inl hlt
        · exact hyall z hz
      · exact ih hys (fun z hz => hx z (List.mem_cons_of_mem _ hz))

/-- Stability of insertion sort on a strictly position-sorted input: the
output is sorted by value with ties in ascending position order. -/
theorem insertionSort_lex {α : Type} [LinearOrder α] (key : ℕ → α) :
    ∀ l : List ℕ, List.Sorted (· < ·) l →
      List.Sorted (fun a b => key a < key b ∨ (key a = key b ∧ a < b))
        (List.insertionSort (fun a b => key a ≤ key b) l) := by
  intro l
  induction l with
  | nil => intro _; simp [List.insertionSort]
  | cons x xs ih =>
    intro hl
    rw [List.insertionSort]
    refine orderedInsert_lex key x _ (ih (List.sorted_cons.mp hl).2) ?_
    intro y hy
    exact (List.sorted_cons.mp hl).1 y
      ((List.perm_insertionSort _ xs).mem_iff.mp hy)

theorem argsortAsc_sorted {α : Type} [LinearOrder α] (d : α) (l : List α) :
    List.Sorted (fun a b => l.getD a d < l.getD b d ∨ (l.getD a d = l.getD b d ∧ a < b))
      (argsortAsc d l) :=
  insertionSort_lex (fun j => l.getD j d) (List.range l.length)
    (List.sorted_lt_range _)

theorem argsortAsc_perm {α : Type} [LinearOrder α] (d : α) (l : List α) :
    (argsortAsc d l).Perm (List.range l.length) :=
  List.perm_insertionSort _ _

/-! ## Shuffle permutation lemmas -/

theorem get_cons_eraseIdx_perm {α : Type} (l : List α) (j : ℕ) (h : j < l.length) :
    (l.get ⟨j, h⟩ :: l.eraseIdx j).Perm l := by
  conv_rhs => rw [← List.take_append_drop j l]
  rw [List.eraseIdx_eq_take_drop_succ]
  have hd : l.drop j = l.get ⟨j, h⟩ :: l.drop (j + 1) := by
    rw [List.drop_eq_getElem_cons h]
    rfl
  rw [hd]
  exact (List.perm_middle).symm

theorem shuffleAux_perm {α : Type} :
    ∀ (fuel : ℕ) (s : ℕ) (l : List α), l.length ≤ fuel → (shuffleAux s fuel l).Perm l := by
  intro fuel
  induction fuel with
  | zero =>
    intro s l hl
    have : l = [] := List.eq_nil_of_length_eq_zero (Nat.le_zero.mp hl)
    subst this
    simp [shuffleAux]
  | succ n ih =>
    intro s l hl
    cases l with
    | nil => simp [shuffleAux]
    | cons x xs =>
      rw [shuffleAux]
      have hj : s % (x :: xs).length < (x :: xs).length :=
        Nat.mod_lt _ (Nat.succ_pos _)
      have hlen : ((x :: xs).eraseIdx (s % (x :: xs).length)).length ≤ n := by
        rw [List.length_eraseIdx]
        simp only [hj, if_pos]
        omega
      exact (List.Perm.cons _ (ih (lcg s) _ hlen)).trans
        (get_cons_eraseIdx_perm (x :: xs) _ hj)

/-! ## Inner merge counting lemmas -/

theorem mergeOn_nil_right {α β : Type} (ka : α → ℕ) (kb : β → ℕ) (left : List α) :
    mergeOn ka kb left ([] : List β) = [] := by
  induction left with
  | nil => rfl
  | cons a as ih => simp [mergeOn] at ih ⊢

theorem mergeOn_cons_left {α β : Type} (ka : α → ℕ) (kb : β → ℕ) (a : α) (as : List α)
    (right : List β) :
    mergeOn ka kb (a :: as) right =
      ((right.filter (fun b => ka a = kb b)).map (fun b => (a, b))) ++ mergeOn ka kb as right := by
  simp [mergeOn]

theorem length_mergeOn_cons_right {α β : Type} (ka : α → ℕ) (kb : β → ℕ)
    (left : List α) (b : β) (rs : List β) :
    (mergeOn ka kb left (b :: rs)).length =
      left.countP (fun a => ka a = kb b) + (mergeOn ka kb left rs).length := by
  induction left with
  | nil => simp [mergeOn]
  | cons a as ih =>
    rw [mergeOn_cons_left, mergeOn_cons_left, List.length_append, List.length_append,
      List.length_map, List.length_map, ih, List.countP_cons, List.filter_cons]
    by_cases h : ka a = kb b
    · simp [h]
      omega
    · simp [h]
      omega

theorem countP_key_le_one {α : Type} (ka : α → ℕ) (left : List α)
    (h : (left.map ka).Nodup) (v : ℕ) :
    left.countP (fun a => ka a = v) ≤ 1 := by
  induction left with
  | nil => simp
  | cons x xs ih =>
    rw [List.map_cons, List.nodup_cons] at h
    rw [List.countP_cons]
    by_cases hx : ka x = v
    · have hz : xs.countP (fun a => ka a = v) = 0 := by
        rw [List.countP_eq_zero]
        intro a ha hav
        apply h.1
        have hav2 : ka a = v := of_decide_eq_true hav
        rw [← hx] at hav2
        rw [← hav2]
        exact List.mem_map_of_mem ka ha
      simp [hz, hx]
    · simp [hx]
      exact ih h.2

theorem length_mergeOn_le {α β : Type} (ka : α → ℕ) (kb : β → ℕ)
    (left : List α) (right : List β) (h : (left.map ka).Nodup) :
    (mergeOn ka kb left right).length ≤ right.length := by
  induction right with
  | nil => rw [mergeOn_nil_right]; simp
  | cons b rs ih =>
    rw [length_mergeOn_cons_right]
    have := countP_key_le_one ka left h (kb b)
    simp only [List.length_cons]
    omega

/-- Concrete items table for the popularity-merge evaluation: items 2 and 3,
of which only item 2 is ever rated in `exRatings`. -/
def exItems : List Item := [⟨2, "B"⟩, ⟨3, "C"⟩]

/-- C7: with embedding tables sized `max_user_id + 1` and `max_item_id + 1`
at initialization, `predict(user_id, item_id)` returns the dot product of the
user's and item's embedding rows whenever both ids are within bounds, and
fails with an error — it does not clamp or return a value — whenever either
id exceeds the table bounds. -/
theorem C7_predict_bounds (m : RegModel) (maxU maxI u i : ℕ)
    (hU : m.userEmb.length = maxU + 1) (hI : m.itemEmb.length = maxI + 1) :
    (u ≤ maxU → i ≤ maxI →
      ∃ uv iv, embLookup m.userEmb u = some uv ∧ embLookup m.itemEmb i = some iv ∧
        predictModel m u i = some (dotQ uv iv)) ∧
    (maxU < u ∨ maxI < i → predictModel m u i = none) := by
  constructor
  · intro hu hi
    have hu2 : u < m.userEmb.length := by omega
    have hi2 : i < m.itemEmb.length := by omega
    refine ⟨m.userEmb[u], m.itemEmb[i], ?_, ?_, ?_⟩
    · exact List.getElem?_eq_getElem hu2
    · exact List.getElem?_eq_getElem hi2
    · simp [predictModel, embLookup, List.getElem?_eq_getElem, hu2, hi2]
  · intro h
    rcases h with h | h
    · have : m.userEmb[u]? = none := List.getElem?_eq_none (by omega)
      simp [predictModel, embLookup, this]
    · have : m.itemEmb[i]? = none := List.getElem?_eq_none (by omega)
      simp [predictModel, embLookup, this]

/-- Witness for C7 at a concrete model with one user row and one item row:
prediction succeeds with the dot product in bounds and fails out of bounds. -/
theorem C7_witness :
    ((∃ uv iv, embLookup (RegModel.mk [[1, 2]] [[3, 4]]).userEmb 0 = some uv ∧
        embLookup (RegModel.mk [[1, 2]] [[3, 4]]).itemEmb 0 = some iv ∧
        predictModel (RegModel.mk [[1, 2]] [[3, 4]]) 0 0 = some (dotQ uv iv))) ∧
    predictModel (RegModel.mk [[1, 2]] [[3, 4]]) 0 1 = none := by
  constructor
  · exact (C7_predict_bounds (RegModel.mk [[1, 2]] [[3, 4]]) 0 0 0 0 rfl rfl).1
      (le_refl 0) (le_refl 0)
  · exact (C7_predict_bounds (RegModel.mk [[1, 2]] [[3, 4]]) 0 0 0 1 rfl rfl).2
      (Or.inr (by omega))

/-- C5: `pd.merge(items, raw_ratings)` has inner-join semantics on
`item_id`: every joined row pairs an item row with a rating row of equal
`item_id` (so a rating whose `item_id` is absent from items is silently
dropped, not an error), every rating whose `item_id` is present survives,
and — items being keyed uniquely by `item_id` — the joined row count never
exceeds the rating row count. -/
theorem C5_join_inner_semantics (items : List Item) (ratings : List Rating)
    (hkey : (items.map Item.item_id).Nodup) :
    (∀ p ∈ allRatingsJoin items ratings,
      p.1 ∈ items ∧ p.2 ∈ ratings ∧ p.1.item_id = p.2.item_id) ∧
    (∀ r ∈ ratings, (∀ it ∈ items, it.item_id ≠ r.item_id) →
      ∀ p ∈ allRatingsJoin items ratings, p.2 ≠ r) ∧
    (∀ r ∈ ratings, (∃ it ∈ items, it.item_id = r.item_id) →
      ∃ it, (it, r) ∈ allRatingsJoin items ratings) ∧
    (allRatingsJoin items ratings).length ≤ ratings.length := by
  have hmem : ∀ p ∈ allRatingsJoin items ratings,
      p.1 ∈ items ∧ p.2 ∈ ratings ∧ p.1.item_id = p.2.item_id := by
    intro p hp
    unfold allRatingsJoin mergeOn at hp
    simp only [List.mem_flatMap, List.mem_map, List.mem_filter] at hp
    obtain ⟨a, ha, b, ⟨hb, hab⟩, rfl⟩ := hp
    exact ⟨ha, hb, of_decide_eq_true hab⟩
  refine ⟨hmem, ?_, ?_, length_mergeOn_le _ _ _ _ hkey⟩
  · intro r _ habsent p hp hpr
    obtain ⟨hp1, _, hpeq⟩ := hmem p hp
    exact habsent p.1 hp1 (by rw [hpeq, hpr])
  · intro r hr h
    obtain ⟨it, hit, hkeq⟩ := h
    refine ⟨it, ?_⟩
    unfold allRatingsJoin mergeOn
    simp only [List.mem_flatMap, List.mem_map, List.mem_filter]
    exact ⟨it, hit, r, ⟨hr, by simp [hkeq]⟩, rfl⟩

/-- Witness for C5 on a one-item table and two ratings, one of which
references a missing item: at most two joined rows result. -/
theorem C5_witness :
    (allRatingsJoin [⟨1, "A"⟩] [⟨7, 1, 5, 0⟩, ⟨7, 9, 4, 0⟩]).length ≤ 2 :=
  (C5_join_inner_semantics [⟨1, "A"⟩] [⟨7, 1, 5, 0⟩, ⟨7, 9, 4, 0⟩] (by decide)).2.2.2

/-- C9: after `items = pd.merge(popularity, items)` every surviving
metadata row belongs to an item with at least one rating, and the indexed
title lookup of any item id with zero ratings finds no row. -/
theorem C9_zero_rated_dropped (ratings : List Rating) (items : List Item) :
    (∀ p ∈ itemsWithPopularity ratings items, ∃ r ∈ ratings, r.item_id = p.2.item_id) ∧
    (∀ id : ℕ, (∀ r ∈ ratings, r.item_id ≠ id) →
      lookupItem (itemsWithPopularity ratings items) id = none) := by
  have hmem : ∀ p ∈ itemsWithPopularity ratings items,
      ∃ r ∈ ratings, r.item_id = p.2.item_id := by
    intro p hp
    unfold itemsWithPopularity mergeOn at hp
    simp only [List.mem_flatMap, List.mem_map, List.mem_filter] at hp
    obtain ⟨a, ha, b, ⟨hb, hab⟩, rfl⟩ := hp
    unfold popularity ratedIds at ha
    simp only [List.mem_map] at ha
    obtain ⟨k, hk, rfl⟩ := ha
    rw [List.mem_dedup] at hk
    simp only [List.mem_map] at hk
    obtain ⟨r, hr, rfl⟩ := hk
    exact ⟨r, hr, of_decide_eq_true hab⟩
  refine ⟨hmem, ?_⟩
  intro id hid
  unfold lookupItem
  rw [List.find?_eq_none]
  intro p hp hpid
  obtain ⟨r, hr, hre⟩ := hmem p hp
  have h2 : p.2.item_id = id := of_decide_eq_true hpid
  exact hid r hr (by rw [hre, h2])

/-- Witness for C9: item 3 has no rating in `exRatings`, so its title
lookup after the popularity merge finds nothing. -/
theorem C9_witness : lookupItem (itemsWithPopularity exRatings exItems) 3 = none :=
  (C9_zero_rated_dropped exRatings exItems).2 3 (by decide)

/-- C1: evaluation of the notebook's `recommend` at a concrete trained
model. User 1 has rated exactly item 2; among the unseen candidates `[1, 3,
4]` the best prediction is 9 for item 4, yet `recommend` returns the title
of item 2 — an item the user has already rated — because the argsort
position 2 is used as an item id in the title lookup. This contradicts the
claim that seen items never appear and that pairs are (item, its predicted
rating). -/
theorem C1_recommend_returns_seen_item :
    recommend exModel exRatings 5 exTitles 1 1 = some [("M2", 9)] ∧
    2 ∈ seenMovies exRatings 1 ∧ exTitles 2 = some "M2" ∧ exTitles 4 = some "M4" := by
  refine ⟨?_, by norm_num [seenMovies, exRatings], by norm_num [exTitles], by norm_num [exTitles]⟩
  norm_num [recommend, recommendCandidates, seenMovies, exRatings, List.range',
    predictAll, predictModel, embLookup, exModel, dotQ, recommendTopItems, sliceLast,
    argsortAsc, List.insertionSort, List.orderedInsert, List.range, exTitles, List.mapM,
    List.mapM.loop]

/-- C4: the modelled `train_test_split` is deterministic in its arguments
(calling it twice with the same rows, fraction and seed gives the identical
pair), and on a duplicate-free row set the returned train and test parts
are disjoint and together contain exactly the input rows. -/
theorem C4_split_partition {α : Type} (rows : List α) (f : ℚ) (seed : ℕ)
    (hnd : rows.Nodup) (_hf0 : 0 < f) (_hf1 : f < 1) :
    trainTestSplit rows f seed = trainTestSplit rows f seed ∧
    (∀ r : α, (r ∈ (trainTestSplit rows f seed).1 ∨ r ∈ (trainTestSplit rows f seed).2)
      ↔ r ∈ rows) ∧
    (∀ r : α, ¬ (r ∈ (trainTestSplit rows f seed).1 ∧ r ∈ (trainTestSplit rows f seed).2)) := by
  have hperm : (shuffleAux seed rows.length rows).Perm rows :=
    shuffleAux_perm rows.length seed rows (le_refl _)
  set p := shuffleAux seed rows.length rows with hp
  set nT := Nat.ceil (f * rows.length) with hnT
  have h1 : (trainTestSplit rows f seed).1 = p.drop nT := rfl
  have h2 : (trainTestSplit rows f seed).2 = p.take nT := rfl
  refine ⟨rfl, ?_, ?_⟩
  · intro r
    rw [h1, h2]
    constructor
    · intro h
      rcases h with h | h
      · exact hperm.mem_iff.mp (List.mem_of_mem_drop h)
      · exact hperm.mem_iff.mp (List.mem_of_mem_take h)
    · intro h
      have hin : r ∈ p := hperm.mem_iff.mpr h
      rw [← List.take_append_drop nT p] at hin
      rcases List.mem_append.mp hin with h | h
      · exact Or.inr h
      · exact Or.inl h
  · intro r h
    rw [h1, h2] at h
    have hnodup : p.Nodup := hperm.symm.nodup hnd
    exact List.disjoint_take_drop hnodup (le_refl nT) h.2 h.1

/-- Witness for C4 at three concrete rows, fraction 1/5, seed 0. -/
theorem C4_witness :
    (∀ r : ℕ, (r ∈ (trainTestSplit [10, 20, 30] (1/5) 0).1 ∨
        r ∈ (trainTestSplit [10, 20, 30] (1/5) 0).2) ↔ r ∈ [10, 20, 30]) ∧
    (∀ r : ℕ, ¬ (r ∈ (trainTestSplit [10, 20, 30] (1/5) 0).1 ∧
        r ∈ (trainTestSplit [10, 20, 30] (1/5) 0).2)) := by
  have h := C4_split_partition [10, 20, 30] (1/5) 0 (by decide) (by norm_num) (by norm_num)
  exact ⟨h.2.1, h.2.2⟩

/-- C8 counterexample: with the concrete year parser, a column holding one
parsable date, one missing date and one unparsable date makes the whole
`pd.to_datetime` conversion fail (its default is `errors='raise'`), instead
of yielding a null year for the unparsable item and retaining it. -/
theorem C8_counterexample :
    parseYearN 5000 = none ∧ some 5000 ∈ [some 1995, none, some 5000] ∧
    toDatetimeColumn parseYearN [some 1995, none, some 5000] = none := by
  refine ⟨by norm_num [parseYearN], by simp, ?_⟩
  norm_num [toDatetimeColumn, parseYearN]

/-- C8 (amended): when every present `release_date` value parses, the
column conversion succeeds, every row is retained in order, and a missing
date yields a null year; but any present unparsable value fails the whole
conversion (pandas `errors='raise'`), rather than yielding a null. -/
theorem C8_release_year_nulls {α : Type} (parse : α → Option ℕ) (col : List (Option α)) :
    ((∀ s : α, some s ∈ col → (parse s).isSome) →
      toDatetimeColumn parse col = some (col.map (fun c => c.bind parse))) ∧
    (∀ s : α, some s ∈ col → parse s = none → toDatetimeColumn parse col = none) := by
  constructor
  · intro h
    induction col with
    | nil => rfl
    | cons c rest ih =>
      have hrest := ih (fun s hs => h s (List.mem_cons_of_mem _ hs))
      cases c with
      | none => simp [toDatetimeColumn, hrest]
      | some s =>
        have hs := h s (List.mem_cons_self _ _)
        rcases Option.isSome_iff_exists.mp hs with ⟨d, hd⟩
        simp [toDatetimeColumn, hd, hrest]
  · intro s hs hnone
    induction col with
    | nil => simp at hs
    | cons c rest ih =>
      rcases List.mem_cons.mp hs with hc | hc
      · subst hc
        simp [toDatetimeColumn, hnone]
      · cases c with
        | none => simp [toDatetimeColumn, ih hc]
        | some t =>
          cases ht : parse t with
          | none => simp [toDatetimeColumn, ht]
          | some d => simp [toDatetimeColumn, ht, ih hc]

/-- Witness for C8 (amended): a parsable date and a missing date convert to
a year and a null, both rows retained. -/
theorem C8_witness :
    toDatetimeColumn parseYearN [some 1995, none] =
      some ([some 1995, none].map (fun c => c.bind parseYearN)) :=
  (C8_release_year_nulls parseYearN [some 1995, none]).1 (by
    intro s hs
    have h1995 : s = 1995 := by simpa using hs
    subst h1995
    decide)

/-- C6 counterexample: on the zero vector the specified contract demands a
failure (`none`), but the notebook's `cosine` (sklearn under the hood)
returns the value `0` instead of failing. -/
theorem C6_counterexample :
    cosineSpecified [0] [1] = none ∧ cosine [0] [1] = 0 := by
  constructor
  · unfold cosineSpecified
    rw [if_pos]
    exact Or.inl (by decide)
  · exact cosine_zero_left (by decide) [1]

/-- C6 (amended): `cosine_similarity(vec_a, vec_b)` returns a real number
in `[-1, 1]` when both vectors are nonzero; when either vector is the zero
vector it does not fail but returns `0.0` (sklearn substitutes norm 1 for
a zero norm). -/
theorem C6_cosine_range (a b : List ℚ) :
    (¬ isZeroVec a → ¬ isZeroVec b → -1 ≤ cosine a b ∧ cosine a b ≤ 1) ∧
    (isZeroVec a ∨ isZeroVec b → cosine a b = 0) := by
  constructor
  · intro _ _
    exact ⟨neg_one_le_cosine a b, cosine_le_one a b⟩
  · intro h
    rcases h with h | h
    · exact cosine_zero_left h b
    · exact cosine_zero_right a h

/-- Witness for C6 (amended): nonzero vectors `[3]` and `[4]` give a cosine
in `[-1, 1]`, and the zero vector against `[4]` gives exactly `0`. -/
theorem C6_witness :
    (-1 ≤ cosine [3] [4] ∧ cosine [3] [4] ≤ 1) ∧ cosine [0] [4] = 0 :=
  ⟨(C6_cosine_range [3] [4]).1 (by decide) (by decide),
    (C6_cosine_range [0] [4]).2 (Or.inl (by decide))⟩

theorem simsOf_length (E : List (List ℚ)) (i : ℕ) : (simsOf E i).length = E.length := by
  simp [simsOf]

theorem simsOf_getD (E : List (List ℚ)) (i j : ℕ) (h : j < E.length) :
    (simsOf E i).getD j 0 = cosine (E.getD i []) (E.getD j []) := by
  have hl : j < (simsOf E i).length := by rw [simsOf_length]; exact h
  rw [List.getD_eq_getElem _ _ hl]
  unfold simsOf
  rw [List.getElem_map]
  congr 1
  exact (List.getD_eq_getElem _ _ h).symm

/-- C3 (amended): `most_similar` returns `min top_n (number of rows)`
entries, sorted by similarity in descending order with equal similarities
broken by **descending** item id (the reverse of a stable ascending
argsort). -/
theorem C3_most_similar_order (i : ℕ) (E : List (List ℚ)) (titles : ℕ → Option String)
    (n : ℕ) :
    (mostSimilar i E titles n).length = min n E.length ∧
    List.Sorted codeSimOrder (mostSimilar i E titles n) := by
  constructor
  · unfold mostSimilar mostSimilarIdx
    rw [List.length_map, List.length_take, List.length_reverse,
      (argsortAsc_perm 0 (simsOf E i)).length_eq, List.length_range, simsOf_length]
  · have hs : List.Pairwise (fun a b => (simsOf E i).getD b 0 < (simsOf E i).getD a 0 ∨
        ((simsOf E i).getD b 0 = (simsOf E i).getD a 0 ∧ b < a)) (mostSimilarIdx i E n) := by
      unfold mostSimilarIdx
      apply List.Pairwise.sublist (List.take_sublist _ _)
      rw [List.pairwise_reverse]
      exact argsortAsc_sorted 0 (simsOf E i)
    unfold mostSimilar
    show List.Pairwise codeSimOrder _
    rw [List.pairwise_map]
    exact hs.imp (fun hab => hab)

/-- C3 counterexample: two items with identical embedding vectors tie at
similarity `1.0`; `most_similar` lists item id 1 before item id 0, so ties
break by descending — not ascending — item id, and with `top_n = 5` only 2
entries are returned, not 5. -/
theorem C3_counterexample :
    ¬ List.Sorted specSimOrder (mostSimilar 0 [[1], [1]] noTitle 2) ∧
    (mostSimilar 0 [[1], [1]] noTitle 5).length = 2 := by
  have hs : simsOf [[1], [1]] 0 = [1, 1] := by
    norm_num [simsOf, cosine, safeNorm, dotQ, Real.sqrt_one]
  have h2 : mostSimilar 0 [[1], [1]] noTitle 2 = [(1, none, 1), (0, none, 1)] := by
    norm_num [mostSimilar, mostSimilarIdx, hs, argsortAsc, List.insertionSort,
      List.orderedInsert, List.range, noTitle]
  constructor
  · rw [h2]
    intro hsort
    have hrel := (List.sorted_cons.mp hsort).1 (0, none, 1) (by simp)
    rcases hrel with h | h
    · exact absurd h (lt_irrefl _)
    · exact absurd h.2 (by omega)
  · norm_num [mostSimilar, mostSimilarIdx, hs, argsortAsc, List.insertionSort,
      List.orderedInsert, List.range]

/-- C2 (amended): if item `i` is in the table, its vector is nonzero, and no
other row has cosine similarity exactly `1.0` with it, then for every
`top_n ≥ 1` the first entry of `most_similar` is `(i, 1.0)`: self-similarity
is `1.0`, maximal, and the query item is not excluded. -/
theorem C2_most_similar_self_first (E : List (List ℚ)) (titles : ℕ → Option String)
    (i n : ℕ) (hi : i < E.length) (hnz : ¬ isZeroVec (E.getD i []))
    (huniq : ∀ j, j < E.length → j ≠ i → cosine (E.getD i []) (E.getD j []) < 1)
    (hn : 1 ≤ n) :
    (mostSimilar i E titles n).head? = some (i, titles i, 1) := by
  have hperm : ((argsortAsc 0 (simsOf E i)).reverse).Perm (List.range E.length) := by
    refine (List.reverse_perm _).trans ?_
    have h := argsortAsc_perm 0 (simsOf E i)
    rwa [simsOf_length] at h
  have hpair : List.Pairwise
      (fun a b => (simsOf E i).getD b 0 < (simsOf E i).getD a 0 ∨
        ((simsOf E i).getD b 0 = (simsOf E i).getD a 0 ∧ b < a))
      ((argsortAsc 0 (simsOf E i)).reverse) := by
    rw [List.pairwise_reverse]
    exact argsortAsc_sorted 0 (simsOf E i)
  have hlen : ((argsortAsc 0 (simsOf E i)).reverse).length = E.length := by
    rw [hperm.length_eq, List.length_range]
  have hne : (argsortAsc 0 (simsOf E i)).reverse ≠ [] := by
    intro h0
    rw [h0] at hlen
    simp at hlen
    omega
  obtain ⟨h, t, hht⟩ := List.exists_cons_of_ne_nil hne
  have hkey_i : (simsOf E i).getD i 0 = 1 := by
    rw [simsOf_getD E i i hi]
    exact cosine_self hnz
  have hmem_i : i ∈ (argsortAsc 0 (simsOf E i)).reverse :=
    hperm.mem_iff.mpr (List.mem_range.mpr hi)
  have hh_lt : h < E.length := by
    have : h ∈ (argsortAsc 0 (simsOf E i)).reverse := by rw [hht]; exact List.mem_cons_self _ _
    exact List.mem_range.mp (hperm.mem_iff.mp this)
  have hkey_h_le : (simsOf E i).getD h 0 ≤ 1 := by
    rw [simsOf_getD E i h hh_lt]
    exact cosine_le_one _ _
  have hhead : h = i := by
    by_contra hne2
    have hit : i ∈ t := by
      rw [hht] at hmem_i
      rcases List.mem_cons.mp hmem_i with h0 | h0
      · exact absurd h0.symm hne2
      · exact h0
    have hrel := (List.pairwise_cons.mp (by rw [hht] at hpair; exact hpair)).1 i hit
    rcases hrel with hlt | heq
    · rw [hkey_i] at hlt
      exact absurd (lt_of_le_of_lt hkey_h_le hlt) (lt_irrefl _)
    · have hkh : (simsOf E i).getD h 0 = 1 := by rw [← heq.1, hkey_i]
      have := huniq h hh_lt hne2
      rw [simsOf_getD E i h hh_lt] at hkh
      exact absurd hkh (ne_of_lt this)
  obtain ⟨m, rfl⟩ : ∃ m, n = m + 1 := ⟨n - 1, by omega⟩
  have hidx : mostSimilarIdx i E (m + 1) = i :: t.take m := by
    unfold mostSimilarIdx
    rw [hht, List.take_succ_cons, hhead]
  unfold mostSimilar
  rw [hidx]
  simp only [List.map_cons, List.head?_cons]
  rw [hkey_i]

/-- Witness for C2 (amended) on orthogonal unit rows `[1,0]` and `[0,1]`:
the first entry for query item 0 with `top_n = 1` is `(0, 1.0)`. -/
theorem C2_witness :
    (mostSimilar 0 [[1, 0], [0, 1]] noTitle 1).head? = some (0, noTitle 0, 1) := by
  apply C2_most_similar_self_first [[1, 0], [0, 1]] noTitle 0 1
  · norm_num
  · norm_num [isZeroVec]
  · intro j hj hne
    simp only [List.length_cons, List.length_nil] at hj
    have hj1 : j = 1 := by omega
    subst hj1
    norm_num [cosine, safeNorm, dotQ]
  · norm_num

/-- C2 counterexample: two identical embedding rows both have similarity
`1.0` with row 0, and `most_similar(0, …, top_n = 1)` returns item 1 —
not the query item 0 — as its first entry; a zero query row does not even
reach similarity `1.0`. -/
theorem C2_counterexample :
    (mostSimilar 0 [[1], [1]] noTitle 1).map (fun e => (e.1, e.2.2)) = [(1, (1 : ℝ))] ∧
    (1 : ℕ) ≠ 0 ∧
    (mostSimilar 0 [[0], [1]] noTitle 1).map (fun e => (e.1, e.2.2)) = [(1, (0 : ℝ))] := by
  refine ⟨?_, by decide, ?_⟩
  · have hs : simsOf [[1], [1]] 0 = [1, 1] := by
      norm_num [simsOf, cosine, safeNorm, dotQ, Real.sqrt_one]
    norm_num [mostSimilar, mostSimilarIdx, hs, argsortAsc, List.insertionSort,
      List.orderedInsert, List.range, noTitle]
  · have hs : simsOf [[0], [1]] 0 = [0, 0] := by
      norm_num [simsOf, cosine, safeNorm, dotQ]
    norm_num [mostSimilar, mostSimilarIdx, hs, argsortAsc, List.insertionSort,
      List.orderedInsert, List.range, noTitle]

/-- C10: the candidate set of `most_similar` is every row index of the
embedding table — the argsort ranks a permutation of `0 … max_item_id`,
and with `top_n` at least the table size the returned index list is that
full permutation, so row 0 appears; `recommend`, in contrast, draws its
candidates from `range(1, max_item_id)` and never considers id 0. -/
theorem C10_candidate_sets (E : List (List ℚ)) (i n : ℕ) (rts : List Rating)
    (maxItem u : ℕ) :
    (argsortAsc 0 (simsOf E i)).Perm (List.range E.length) ∧
    (E.length ≤ n → (mostSimilarIdx i E n).Perm (List.range E.length)) ∧
    (1 ≤ E.length → E.length ≤ n → 0 ∈ mostSimilarIdx i E n) ∧
    (∀ x ∈ recommendCandidates rts maxItem u, 1 ≤ x) := by
  have hperm : (argsortAsc 0 (simsOf E i)).Perm (List.range E.length) := by
    have h := argsortAsc_perm 0 (simsOf E i)
    rwa [simsOf_length] at h
  have h2 : E.length ≤ n → (mostSimilarIdx i E n).Perm (List.range E.length) := by
    intro hn
    unfold mostSimilarIdx
    have hrl : (argsortAsc 0 (simsOf E i)).reverse.length = E.length := by
      rw [List.length_reverse, hperm.length_eq, List.length_range]
    rw [List.take_of_length_le (by rw [hrl]; exact hn)]
    exact (List.reverse_perm _).trans hperm
  refine ⟨hperm, h2, ?_, ?_⟩
  · intro h1 hn
    exact ((h2 hn).mem_iff).mpr (List.mem_range.mpr (by omega))
  · intro x hx
    unfold recommendCandidates at hx
    have h3 := (List.mem_filter.mp hx).1
    have h4 := List.mem_range'_1.mp h3
    omega

/-- Witness for C10: for the two-row table, `most_similar`'s index list with
`top_n = 2` is a permutation of `{0, 1}` containing row 0, and every
`recommend` candidate id is at least 1. -/
theorem C10_witness :
    (mostSimilarIdx 1 [[1], [1]] 2).Perm (List.range 2) ∧
    0 ∈ mostSimilarIdx 1 [[1], [1]] 2 ∧
    (∀ x ∈ recommendCandidates exRatings 5 1, 1 ≤ x) := by
  have h := C10_candidate_sets [[1], [1]] 1 2 exRatings 5 1
  exact ⟨h.2.1 (by simp), h.2.2.1 (by simp) (by simp), h.2.2.2⟩
